import Mathlib

/-!
# RecipeApp core verification

A shallow embedding of the recipe-matching and ranking engine of the
RecipeApp repository (`recipe_app.py`, `vision.py`, `web_app.py`),
together with theorems settling the specification claims about it.

Conventions of the embedding:
* Python lists become Lean `List`s; Python dicts that are built by
  inserting distinct keys in order become association lists
  (`List (key × value)`), which preserves the insertion order exactly
  as CPython dicts do.
* Python's set-membership tests on a set built from a list are modelled
  by list membership on the same elements (extensionally identical).
* Fallible Python code (code that can raise) returns `Except String α`,
  the error string naming the exception.
-/

namespace RecipeApp

/-- Python's `str.lower()`, modelled character-wise: `Char.toLower` lowers
exactly the ASCII letters `A`-`Z`, which agrees with CPython on all ASCII
strings (every ingredient token in the repository's catalog and scenarios is
ASCII). -/
def py_lower (s : String) : String :=
  ⟨s.data.map Char.toLower⟩

/-- The `Recipe` dataclass of `recipe_app.py`: a name, an ordered list of
required ingredient tokens and free-form instruction text. -/
structure Recipe where
  name : String
  ingredients : List String
  instructions : String
  deriving DecidableEq

/-- `Recipe.missing_ingredients` (recipe_app.py, lines 29-32):
`available_set = {i.lower() for i in available}` followed by
`[ing for ing in self.ingredients if ing.lower() not in available_set]`. -/
def Recipe.missing_ingredients (r : Recipe) (available : List String) : List String :=
  let available_set := available.map py_lower
  r.ingredients.filter (fun ing => !available_set.contains (py_lower ing))

/-- `generate_shopping_list` (recipe_app.py, lines 145-147): delegates to
`Recipe.missing_ingredients`. -/
def generate_shopping_list (recipe : Recipe) (available : List String) : List String :=
  recipe.missing_ingredients available

/-- Claim C1: for every recipe `R` and available-ingredient list `A`,
`missing(R, A)` equals the subsequence of `R.ingredients`, in original order,
of exactly those tokens whose lower-cased form is absent from the set of
lower-cased elements of `A`; in particular it is always a subsequence of
`R.ingredients` preserving relative order (`List.Sublist`). -/
theorem C1_missing_is_case_insensitive_filter_and_sublist :
    ∀ (r : Recipe) (available : List String),
      r.missing_ingredients available
        = r.ingredients.filter (fun ing => decide (py_lower ing ∉ available.map py_lower))
      ∧ List.Sublist (r.missing_ingredients available) r.ingredients := by
  intro r available
  refine ⟨?_, List.filter_sublist _⟩
  unfold Recipe.missing_ingredients
  apply List.filter_congr
  intro x _
  simp only [List.contains, List.elem_eq_mem, decide_not]

/-- Claim C10: the tokens returned by `missing(R, A)` (and hence by the
Shopping List Builder) are `R`'s ingredient strings verbatim, with original
casing and multiplicity; lower-casing happens only inside the membership
test.  Formally: the shopping list is literally `missing_ingredients`, and
for any string `s`, its multiplicity in the result is its multiplicity in
`R.ingredients` when `s`'s lower-cased form is unavailable, and `0` when it
is available. -/
theorem C10_tokens_verbatim_with_multiplicity :
    ∀ (r : Recipe) (available : List String),
      generate_shopping_list r available = r.missing_ingredients available
      ∧ ∀ s : String,
          (r.missing_ingredients available).count s
            = if py_lower s ∈ available.map py_lower then 0
              else r.ingredients.count s := by
  intro r available
  refine ⟨rfl, fun s => ?_⟩
  unfold Recipe.missing_ingredients
  by_cases hs : py_lower s ∈ available.map py_lower
  · rw [if_pos hs]
    refine List.count_eq_zero.mpr ?_
    intro hmem
    have := List.of_mem_filter hmem
    simp [hs] at this
  · rw [if_neg hs]
    refine List.count_filter ?_
    simp [hs]

/-- The comparison key of `suggestions.sort(key=lambda x: len(x[1]))`
(recipe_app.py, line 101): suggestion `a` precedes (or ties) suggestion `b`
when `a` has at most as many missing ingredients. -/
def suggestion_le (a b : Recipe × List String) : Prop :=
  a.2.length ≤ b.2.length

instance : DecidableRel suggestion_le :=
  fun a b => Nat.decLe a.2.length b.2.length

instance : IsTotal (Recipe × List String) suggestion_le :=
  ⟨fun a b => Nat.le_total a.2.length b.2.length⟩

instance : IsTrans (Recipe × List String) suggestion_le :=
  ⟨fun _ _ _ hab hbc => Nat.le_trans hab hbc⟩

/-- `suggest_recipes` (recipe_app.py, lines 91-102): build one
`(recipe, missing)` pair per catalog recipe in catalog order, then
`suggestions.sort(key=lambda x: len(x[1]))`.  CPython's `list.sort` is a
stable sort by the key; a stable sort over a total preorder has a unique
result, so it is modelled by the (stable) insertion sort, which computes
exactly the same list. -/
def suggest_recipes (recipes : List Recipe) (available : List String) :
    List (Recipe × List String) :=
  let suggestions := recipes.map (fun r => (r, r.missing_ingredients available))
  List.insertionSort suggestion_le suggestions

theorem filter_len_orderedInsert_eq (n : Nat) (a : Recipe × List String)
    (ha : a.2.length = n) :
    ∀ l : List (Recipe × List String),
      (List.orderedInsert suggestion_le a l).filter (fun x => x.2.length == n)
        = a :: l.filter (fun x => x.2.length == n)
  | [] => by simp [ha]
  | b :: l => by
    by_cases hab : suggestion_le a b
    · rw [List.orderedInsert, if_pos hab]
      simp [ha]
    · rw [List.orderedInsert, if_neg hab]
      have hb : ¬ b.2.length = n := by
        intro hbn
        exact hab (by simp [suggestion_le, ha, hbn])
      rw [List.filter_cons_of_neg (by simpa using hb),
        filter_len_orderedInsert_eq n a ha l,
        List.filter_cons_of_neg (by simpa using hb)]

theorem filter_len_orderedInsert_ne (n : Nat) (a : Recipe × List String)
    (ha : ¬ a.2.length = n) :
    ∀ l : List (Recipe × List String),
      (List.orderedInsert suggestion_le a l).filter (fun x => x.2.length == n)
        = l.filter (fun x => x.2.length == n)
  | [] => by simp [ha]
  | b :: l => by
    by_cases hab : suggestion_le a b
    · rw [List.orderedInsert, if_pos hab]
      simp [ha]
    · rw [List.orderedInsert, if_neg hab]
      by_cases hbn : b.2.length = n
      · simp [hbn, filter_len_orderedInsert_ne n a ha l]
      · simp [hbn, filter_len_orderedInsert_ne n a ha l]

theorem filter_len_insertionSort (n : Nat) :
    ∀ l : List (Recipe × List String),
      (List.insertionSort suggestion_le l).filter (fun x => x.2.length == n)
        = l.filter (fun x => x.2.length == n)
  | [] => rfl
  | a :: l => by
    rw [List.insertionSort]
    by_cases h : a.2.length = n
    · rw [filter_len_orderedInsert_eq n a h, filter_len_insertionSort n l]
      simp [h]
    · rw [filter_len_orderedInsert_ne n a h, filter_len_insertionSort n l]
      simp [h]

/-- Claim C2: `rank(C, A)` is sorted by ascending count of missing
ingredients, and suggestions with equal missing-count appear in the same
relative order as their recipes appear in the catalog (stability), stated
as: for every count `n`, restricting the ranking to suggestions with
exactly `n` missing ingredients yields exactly the catalog-order list of
such suggestions. -/
theorem C2_rank_sorted_and_stable :
    ∀ (catalog : List Recipe) (available : List String),
      List.Sorted suggestion_le (suggest_recipes catalog available)
      ∧ ∀ n : Nat,
          (suggest_recipes catalog available).filter (fun s => s.2.length == n)
            = (catalog.map (fun r => (r, r.missing_ingredients available))).filter
                (fun s => s.2.length == n) := by
  intro catalog available
  constructor
  · exact List.sorted_insertionSort suggestion_le _
  · intro n
    exact filter_len_insertionSort n _

/-- Claim C4: `rank(C, A)` has exactly the length of the catalog and is a
permutation of the list pairing every catalog recipe with its missing
ingredients — no recipe is filtered out. -/
theorem C4_rank_keeps_every_recipe :
    ∀ (catalog : List Recipe) (available : List String),
      (suggest_recipes catalog available).length = catalog.length
      ∧ List.Perm (suggest_recipes catalog available)
          (catalog.map (fun r => (r, r.missing_ingredients available))) := by
  intro catalog available
  have hperm := List.perm_insertionSort suggestion_le
    (catalog.map (fun r => (r, r.missing_ingredients available)))
  refine ⟨?_, hperm⟩
  show (List.insertionSort suggestion_le
    (catalog.map (fun r => (r, r.missing_ingredients available)))).length = catalog.length
  rw [hperm.length_eq, List.length_map]

/-- The day-name literal of `create_meal_plan` (recipe_app.py, lines 156-159). -/
def day_names : List String :=
  ["Monday", "Tuesday", "Wednesday", "Thursday", "Friday", "Saturday", "Sunday"]

/-- Number of elements kept by the Python slice `l[:stop]` on a list of
length `len`: a negative `stop` counts from the end (clamped at `0`), a
non-negative `stop` is clamped at `len`. -/
def py_slice_stop (len : Nat) (stop : Int) : Nat :=
  if stop < 0 then ((len : Int) + stop).toNat else min stop.toNat len

/-- The exception raised by CPython for `i % 0`. -/
def zero_division_msg : String :=
  "ZeroDivisionError: integer division or modulo by zero"

/-- The loop of `create_meal_plan` (recipe_app.py, lines 160-163):
`for i, day in enumerate(day_names): plan[day] = recipes[i % len(recipes)]`.
Evaluating `i % len(recipes)` with an empty recipe list raises
`ZeroDivisionError`.  The dict built by inserting the (distinct) day names
in order is modelled as the association list in insertion order. -/
def plan_days (recipes : List Recipe) :
    Nat → List String → Except String (List (String × Recipe))
  | _, [] => .ok []
  | i, day :: rest =>
    if h : recipes.length = 0 then .error zero_division_msg
    else
      match plan_days recipes (i + 1) rest with
      | .error e => .error e
      | .ok tail =>
          .ok ((day, recipes.get ⟨i % recipes.length,
            Nat.mod_lt i (Nat.pos_of_ne_zero h)⟩) :: tail)

/-- `create_meal_plan` (recipe_app.py, lines 150-164): slice the seven day
names to `day_names[:days]` and cycle the recipe list across them. -/
def create_meal_plan (recipes : List Recipe) (days : Int) :
    Except String (List (String × Recipe)) :=
  plan_days recipes 0 (day_names.take (py_slice_stop day_names.length days))

theorem plan_days_ok_of_ne_nil (recipes : List Recipe) (h : recipes ≠ []) :
    ∀ (days_list : List String) (i : Nat), ∃ l, plan_days recipes i days_list = .ok l := by
  intro days_list
  induction days_list with
  | nil => exact fun i => ⟨[], rfl⟩
  | cons day rest ih =>
    intro i
    obtain ⟨l, hl⟩ := ih (i + 1)
    have hlen : ¬ recipes.length = 0 := fun hh => h (List.length_eq_zero.mp hh)
    refine ⟨(day, recipes.get ⟨i % recipes.length,
      Nat.mod_lt i (Nat.pos_of_ne_zero hlen)⟩) :: l, ?_⟩
    simp only [plan_days]
    rw [dif_neg hlen, hl]

theorem plan_days_spec (recipes : List Recipe) (h : recipes ≠ []) :
    ∀ (days_list : List String) (i : Nat),
      ∃ plan, plan_days recipes i days_list = .ok plan
        ∧ plan.map Prod.fst = days_list
        ∧ ∀ j day r, plan.get? j = some (day, r) →
            recipes.get? ((i + j) % recipes.length) = some r := by
  intro days_list
  induction days_list with
  | nil => exact fun i => ⟨[], rfl, rfl, by intro j day r hj; cases hj⟩
  | cons day rest ih =>
    intro i
    obtain ⟨tail, htail, hkeys, hvals⟩ := ih (i + 1)
    have hlen : ¬ recipes.length = 0 := fun hh => h (List.length_eq_zero.mp hh)
    refine ⟨(day, recipes.get ⟨i % recipes.length,
      Nat.mod_lt i (Nat.pos_of_ne_zero hlen)⟩) :: tail, ?_, ?_, ?_⟩
    · simp only [plan_days]
      rw [dif_neg hlen, htail]
    · simpa using hkeys
    · intro j d r hj
      match j, hj with
      | 0, hj =>
        have h0 : day = d ∧ recipes.get ⟨i % recipes.length,
            Nat.mod_lt i (Nat.pos_of_ne_zero hlen)⟩ = r := by simpa using hj
        rw [Nat.add_zero, ← h0.2]
        exact List.get?_eq_get (Nat.mod_lt i (Nat.pos_of_ne_zero hlen))
      | Nat.succ j, hj =>
        have hrec := hvals j d r (by simpa using hj)
        have harith : i + 1 + j = i + (j + 1) := by omega
        rw [← harith]
        exact hrec

/-- Claim C9: the planner faults if and only if the recipe list is empty
and the clamped day-name prefix is non-empty; in particular
`create_meal_plan(recipes, 0)` returns the empty mapping without failing,
for every recipe list. -/
theorem C9_fault_iff_empty_recipes_and_some_day :
    ∀ (recipes : List Recipe) (days : Int),
      ((∃ e, create_meal_plan recipes days = .error e)
        ↔ recipes = [] ∧ day_names.take (py_slice_stop day_names.length days) ≠ [])
      ∧ create_meal_plan recipes 0 = .ok [] := by
  intro recipes days
  refine ⟨⟨?_, ?_⟩, rfl⟩
  · rintro ⟨e, he⟩
    by_cases hr : recipes = []
    · subst hr
      refine ⟨rfl, fun hnil => ?_⟩
      unfold create_meal_plan at he
      rw [hnil] at he
      cases he
    · exfalso
      obtain ⟨l, hl⟩ := plan_days_ok_of_ne_nil recipes hr
        (day_names.take (py_slice_stop day_names.length days)) 0
      unfold create_meal_plan at he
      rw [hl] at he
      cases he
  · rintro ⟨hr, hne⟩
    subst hr
    obtain ⟨d, rest, hd⟩ := List.exists_cons_of_ne_nil hne
    refine ⟨zero_division_msg, ?_⟩
    unfold create_meal_plan
    rw [hd]
    rfl

/-- Claim C6: with an empty recipe list the planner fails fatally with the
division/modulo-by-zero error and returns no result, for every day count of
at least one (which includes the default, `days = 7`). -/
theorem C6_empty_recipes_fails_fatally :
    ∀ days : Int, 1 ≤ days →
      create_meal_plan [] days = Except.error zero_division_msg := by
  intro days h
  have h7 : day_names.length = 7 := rfl
  have h1 : 1 ≤ py_slice_stop day_names.length days := by
    unfold py_slice_stop
    rw [if_neg (by omega)]
    have h2 : 1 ≤ days.toNat := by omega
    omega
  have hne : day_names.take (py_slice_stop day_names.length days) ≠ [] := by
    intro hnil
    have hlen := congrArg List.length hnil
    rw [List.length_take, List.length_nil] at hlen
    omega
  obtain ⟨d, rest, hd⟩ := List.exists_cons_of_ne_nil hne
  unfold create_meal_plan
  rw [hd]
  rfl

/-- Witness for C6 at the planner's default day count `days = 7`. -/
theorem C6_empty_recipes_fails_fatally_witness :
    (1 : Int) ≤ 7 ∧ create_meal_plan [] 7 = Except.error zero_division_msg :=
  ⟨by decide, C6_empty_recipes_fails_fatally 7 (by decide)⟩

/-- Counterexample to claim C5 as stated: for the negative day count
`days = -1` (a legal `int` argument), the Python slice `day_names[:-1]`
keeps the first six day names, so the plan for a one-recipe list has keys
Monday..Saturday — not the first `min(days, 7)` day names, which would be
none at all. -/
theorem C5_counterexample_negative_days :
    ¬ ((create_meal_plan [⟨"X", ["x"], ""⟩] (-1)).toOption.map
          (fun plan => plan.map Prod.fst)
        = some (day_names.take (min (-1 : Int) 7).toNat)) := by
  decide

/-- Claim C5 amended: restricted to non-negative `days`, the plan's keys
are the first `min(days, 7)` weekday names in Monday..Sunday order, the
`i`-th day is assigned `recipes[i mod len(recipes)]`, a single recipe is
assigned to every day, and two recipes alternate X, Y, X, Y, X, Y, X over
a full week.  (With a negative `days` the Python slice `day_names[:days]`
instead keeps the first `7 + days` day names.) -/
theorem C5_plan_keys_and_cycling :
    (∀ (recipes : List Recipe) (days : Int), recipes ≠ [] → 0 ≤ days →
      ∃ plan, create_meal_plan recipes days = .ok plan
        ∧ plan.map Prod.fst = day_names.take (min days 7).toNat
        ∧ ∀ i day r, plan.get? i = some (day, r) →
            recipes.get? (i % recipes.length) = some r)
    ∧ (∀ X : Recipe, create_meal_plan [X] 7
        = .ok [("Monday", X), ("Tuesday", X), ("Wednesday", X), ("Thursday", X),
               ("Friday", X), ("Saturday", X), ("Sunday", X)])
    ∧ (∀ X Y : Recipe, create_meal_plan [X, Y] 7
        = .ok [("Monday", X), ("Tuesday", Y), ("Wednesday", X), ("Thursday", Y),
               ("Friday", X), ("Saturday", Y), ("Sunday", X)]) := by
  refine ⟨?_, fun X => by simp [create_meal_plan, plan_days, day_names, py_slice_stop],
    fun X Y => by simp [create_meal_plan, plan_days, day_names, py_slice_stop]⟩
  intro recipes days hrec hdays
  obtain ⟨plan, hplan, hkeys, hvals⟩ := plan_days_spec recipes hrec
    (day_names.take (py_slice_stop day_names.length days)) 0
  refine ⟨plan, hplan, ?_, fun i day r hi => by simpa using hvals i day r hi⟩
  rw [hkeys]
  have h7 : day_names.length = 7 := rfl
  have : py_slice_stop day_names.length days = (min days 7).toNat := by
    unfold py_slice_stop
    rw [if_neg (by omega)]
    omega
  rw [this]

/-- Witness for the amended C5 at the concrete input
`recipes = [recipe X], days = 3`. -/
theorem C5_plan_keys_and_cycling_witness :
    (([⟨"X", ["x"], ""⟩] : List Recipe) ≠ []) ∧ ((0 : Int) ≤ 3)
    ∧ (∃ plan, create_meal_plan [⟨"X", ["x"], ""⟩] 3 = .ok plan
        ∧ plan.map Prod.fst = day_names.take (min (3 : Int) 7).toNat
        ∧ ∀ i day r, plan.get? i = some (day, r) →
            ([⟨"X", ["x"], ""⟩] : List Recipe).get? (i % 1) = some r) :=
  ⟨by simp, by decide,
    C5_plan_keys_and_cycling.1 [⟨"X", ["x"], ""⟩] 3 (by simp) (by decide)⟩

/-- Split a character list at every character satisfying `p`, keeping empty
segments — the behaviour of Python's `str.split(sep)` for a one-character
separator (and of `re.split` on single characters, up to the empty segments
that both callers discard). -/
def split_by (p : Char → Bool) : List Char → List (List Char)
  | [] => [[]]
  | c :: cs =>
    match split_by p cs with
    | [] => [[c]]
    | t :: ts => if p c then [] :: t :: ts else (c :: t) :: ts

/-- Python `selection.split(',')`. -/
def py_split_commas (s : String) : List String :=
  (split_by (fun c => c == ',') s.data).map (fun l => ⟨l⟩)

/-- Python `str.strip()`: drop whitespace from both ends (ASCII whitespace;
no other whitespace occurs in the claims' scenarios). -/
def py_strip (s : String) : String :=
  ⟨((s.data.dropWhile Char.isWhitespace).reverse.dropWhile Char.isWhitespace).reverse⟩

/-- The digit-run accumulator of Python's `int(text)`. -/
def digits_value (acc : Nat) : List Char → Option Nat
  | [] => some acc
  | c :: cs =>
    if c.isDigit then digits_value (acc * 10 + (c.toNat - '0'.toNat)) cs else none

/-- Python's `int(text)` on an already-stripped token: an optional single
sign followed by at least one decimal digit; anything else raises
`ValueError`, modelled as `none`.  (Underscore digit separators and
non-ASCII digits, which CPython also accepts, occur in no claim scenario
and are not modelled.) -/
def py_int_of_string (s : String) : Option Int :=
  match s.data with
  | [] => none
  | '+' :: [] => none
  | '-' :: [] => none
  | '+' :: rest => (digits_value 0 rest).map (fun n => (n : Int))
  | '-' :: rest => (digits_value 0 rest).map (fun n => -(n : Int))
  | l => (digits_value 0 l).map (fun n => (n : Int))

/-- `[p.strip() for p in selection.split(',') if p.strip()]`
(recipe_app.py, line 124): split on commas, trim whitespace, discard empty
tokens. -/
def selection_parts (selection : String) : List String :=
  ((py_split_commas selection).map py_strip).filter (fun p => p != "")

/-- One iteration of the token loop of `choose_recipes` (recipe_app.py,
lines 125-133): a valid token appends its 0-based index, an invalid one
appends a warning string (the `print` calls are returned as data). -/
def parse_step (n : Nat) (acc : List Nat × List String) (part : String) :
    List Nat × List String :=
  match py_int_of_string part with
  | some idx =>
    if 1 ≤ idx ∧ idx ≤ (n : Int) then (acc.1 ++ [(idx - 1).toNat], acc.2)
    else (acc.1, acc.2 ++ ["Ignoring invalid recipe number: " ++ toString idx])
  | none => (acc.1, acc.2 ++ ["Ignoring invalid input: " ++ part])

/-- The deduplication loop of `choose_recipes` (recipe_app.py, lines
134-142): map each collected index back to its recipe, skipping recipes
whose name is already in the `seen` set (modelled as the list of names
already chosen). -/
def dedup_loop (suggestions : List (Recipe × List String)) :
    List Nat → List String → List Recipe
  | [], _ => []
  | idx :: rest, seen =>
    match suggestions[idx]? with
    | some s =>
      if s.1.name ∈ seen then dedup_loop suggestions rest seen
      else s.1 :: dedup_loop suggestions rest (s.1.name :: seen)
    | none => dedup_loop suggestions rest seen

/-- The full token loop of `choose_recipes` (recipe_app.py, lines 125-133)
over the split tokens: collected 0-based indices and warnings. -/
def parse_selection (n : Nat) (selection : String) : List Nat × List String :=
  (selection_parts selection).foldl (parse_step n) ([], [])

/-- `choose_recipes` (recipe_app.py, lines 114-142), with the raw selection
string read by `input()` passed as an argument and the per-token warning
prints returned as the second component.  An empty or whitespace-only
selection short-circuits to no chosen recipes and no warnings. -/
def choose_recipes (suggestions : List (Recipe × List String)) (selection : String) :
    List Recipe × List String :=
  if py_strip selection = "" then ([], [])
  else
    (dedup_loop suggestions (parse_selection suggestions.length selection).1 [],
     (parse_selection suggestions.length selection).2)

/-- Declarative reading of the warning policy: the warning a token produces,
if any (`n` is the suggestion count). -/
def warning_of (n : Nat) (part : String) : Option String :=
  match py_int_of_string part with
  | none => some ("Ignoring invalid input: " ++ part)
  | some idx =>
    if 1 ≤ idx ∧ idx ≤ (n : Int) then none
    else some ("Ignoring invalid recipe number: " ++ toString idx)

/-- Declarative reading of token validity: the 0-based index a valid token
selects, if any. -/
def valid_index_of (n : Nat) (part : String) : Option Nat :=
  match py_int_of_string part with
  | none => none
  | some idx =>
    if 1 ≤ idx ∧ idx ≤ (n : Int) then some (idx - 1).toNat else none

/-- The sequence of recipes the valid tokens select, in selection order and
with repetitions (before deduplication). -/
def selected_recipes (suggestions : List (Recipe × List String)) (selection : String) :
    List Recipe :=
  ((selection_parts selection).filterMap (valid_index_of suggestions.length)).filterMap
    (fun i => suggestions[i]?.map Prod.fst)

/-- Keep the first occurrence of every recipe name not already in `seen`. -/
def dedup_first_from (seen : List String) : List Recipe → List Recipe
  | [] => []
  | r :: rs =>
    if r.name ∈ seen then dedup_first_from seen rs
    else r :: dedup_first_from (r.name :: seen) rs

/-- Keep the first occurrence of every recipe name. -/
def dedup_first (l : List Recipe) : List Recipe :=
  dedup_first_from [] l

theorem parse_foldl_eq (n : Nat) :
    ∀ (parts : List String) (acc : List Nat × List String),
      parts.foldl (parse_step n) acc
        = (acc.1 ++ parts.filterMap (valid_index_of n),
           acc.2 ++ parts.filterMap (warning_of n)) := by
  intro parts
  induction parts with
  | nil => intro acc; simp
  | cons p ps ih =>
    intro acc
    rw [List.foldl_cons, ih]
    unfold parse_step valid_index_of warning_of
    match hp : py_int_of_string p with
    | none => simp [hp]
    | some idx =>
      by_cases hr : 1 ≤ idx ∧ idx ≤ (n : Int)
      · simp [hp, hr]
      · simp [hp, hr]

theorem parse_selection_eq (n : Nat) (selection : String) :
    parse_selection n selection
      = ((selection_parts selection).filterMap (valid_index_of n),
         (selection_parts selection).filterMap (warning_of n)) := by
  unfold parse_selection
  rw [parse_foldl_eq]
  simp

theorem dedup_loop_eq (suggestions : List (Recipe × List String)) :
    ∀ (idxs : List Nat) (seen : List String),
      dedup_loop suggestions idxs seen
        = dedup_first_from seen
            (idxs.filterMap (fun i => suggestions[i]?.map Prod.fst)) := by
  intro idxs
  induction idxs with
  | nil => intro seen; rfl
  | cons i is ih =>
    intro seen
    simp only [dedup_loop]
    cases hS : suggestions[i]? with
    | none => simp [hS, List.filterMap_cons, ih]
    | some s =>
      simp only [hS, List.filterMap_cons, Option.map_some]
      by_cases hseen : s.1.name ∈ seen
      · simp [dedup_first_from, hseen, ih]
      · simp [dedup_first_from, hseen, ih]

theorem dedup_first_from_sublist :
    ∀ (l : List Recipe) (seen : List String),
      List.Sublist (dedup_first_from seen l) l := by
  intro l
  induction l with
  | nil => intro seen; exact List.Sublist.refl []
  | cons r rs ih =>
    intro seen
    unfold dedup_first_from
    by_cases h : r.name ∈ seen
    · rw [if_pos h]
      exact (ih seen).cons r
    · rw [if_neg h]
      exact (ih (r.name :: seen)).cons₂ r

theorem dedup_first_from_not_seen :
    ∀ (l : List Recipe) (seen : List String) (x : String),
      x ∈ (dedup_first_from seen l).map Recipe.name → x ∉ seen := by
  intro l
  induction l with
  | nil => intro seen x hx; cases hx
  | cons r rs ih =>
    intro seen x hx
    unfold dedup_first_from at hx
    by_cases h : r.name ∈ seen
    · rw [if_pos h] at hx
      exact ih seen x hx
    · rw [if_neg h] at hx
      simp only [List.map_cons, List.mem_cons] at hx
      rcases hx with hx | hx
      · subst hx; exact h
      · intro hxs
        exact ih (r.name :: seen) x hx (List.mem_cons_of_mem _ hxs)

theorem dedup_first_from_names_nodup :
    ∀ (l : List Recipe) (seen : List String),
      ((dedup_first_from seen l).map Recipe.name).Nodup := by
  intro l
  induction l with
  | nil => intro seen; exact List.nodup_nil
  | cons r rs ih =>
    intro seen
    unfold dedup_first_from
    by_cases h : r.name ∈ seen
    · rw [if_pos h]
      exact ih seen
    · rw [if_neg h]
      simp only [List.map_cons, List.nodup_cons]
      refine ⟨fun hmem => ?_, ih (r.name :: seen)⟩
      exact dedup_first_from_not_seen rs (r.name :: seen) r.name hmem
        (List.mem_cons_self _ _)

theorem dedup_first_from_append_dup :
    ∀ (l : List Recipe) (seen : List String) (r : Recipe),
      (r.name ∈ seen ∨ r.name ∈ (dedup_first_from seen l).map Recipe.name) →
      dedup_first_from seen (l ++ [r]) = dedup_first_from seen l := by
  intro l
  induction l with
  | nil =>
    intro seen r hr
    have hseen : r.name ∈ seen := by
      rcases hr with hr | hr
      · exact hr
      · cases hr
    simp [dedup_first_from, hseen]
  | cons a as ih =>
    intro seen r hr
    simp only [List.cons_append]
    unfold dedup_first_from
    by_cases ha : a.name ∈ seen
    · rw [if_pos ha, if_pos ha]
      refine ih seen r ?_
      rcases hr with hr | hr
      · exact Or.inl hr
      · rw [dedup_first_from, if_pos ha] at hr
        exact Or.inr hr
    · rw [if_neg ha, if_neg ha]
      congr 1
      refine ih (a.name :: seen) r ?_
      rcases hr with hr | hr
      · exact Or.inl (List.mem_cons_of_mem _ hr)
      · rw [dedup_first_from, if_neg ha] at hr
        simp only [List.map_cons, List.mem_cons] at hr
        rcases hr with hr | hr
        · exact Or.inl (by rw [hr]; exact List.mem_cons_self _ _)
        · exact Or.inr hr

/-- Claim C7: the Selector splits on commas, trims whitespace and discards
empty tokens (`selection_parts`); an empty or whitespace-only input yields
an empty result with no warnings; otherwise every offending token
(non-integer, or integer out of `[1, len(suggestions)]`) contributes
exactly its warning string, in token order, and the chosen recipes are
computed from the remaining valid tokens alone. -/
theorem C7_selector_warning_policy :
    ∀ (suggestions : List (Recipe × List String)) (selection : String),
      (py_strip selection = "" → choose_recipes suggestions selection = ([], []))
      ∧ (py_strip selection ≠ "" →
          (choose_recipes suggestions selection).2
            = (selection_parts selection).filterMap (warning_of suggestions.length)
          ∧ (choose_recipes suggestions selection).1
            = dedup_first (selected_recipes suggestions selection)) := by
  intro suggestions selection
  constructor
  · intro h
    unfold choose_recipes
    rw [if_pos h]
  · intro h
    unfold choose_recipes
    rw [if_neg h]
    rw [parse_selection_eq]
    constructor
    · rfl
    · rw [dedup_loop_eq]
      rfl

/-- Witness for C7: a whitespace-only selection yields no recipes and no
warnings, and the scenario `"1, 1, 9, abc, 2"` against a two-element
suggestion list produces exactly the warnings for `9` and `abc`. -/
theorem C7_selector_warning_policy_witness :
    choose_recipes [(⟨"A", ["a"], ""⟩, []), (⟨"B", ["b"], ""⟩, ["x"])] "   " = ([], [])
    ∧ (choose_recipes [(⟨"A", ["a"], ""⟩, []), (⟨"B", ["b"], ""⟩, ["x"])]
        "1, 1, 9, abc, 2").2
      = (selection_parts "1, 1, 9, abc, 2").filterMap (warning_of 2) :=
  ⟨(C7_selector_warning_policy _ "   ").1 (by decide),
    ((C7_selector_warning_policy
      [(⟨"A", ["a"], ""⟩, []), (⟨"B", ["b"], ""⟩, ["x"])] "1, 1, 9, abc, 2").2
      (by decide)).1⟩

/-- Claim C8: the Selector's result holds each recipe name at most once
(`Nodup`), is a subsequence of the selection-order sequence of validly
selected recipes, equals exactly the first occurrence of each name in that
sequence, and appending another selection of an already-chosen name changes
nothing. -/
theorem C8_selector_dedup_first_order :
    ∀ (suggestions : List (Recipe × List String)) (selection : String),
      ((choose_recipes suggestions selection).1.map Recipe.name).Nodup
      ∧ List.Sublist (choose_recipes suggestions selection).1
          (selected_recipes suggestions selection)
      ∧ (py_strip selection ≠ "" →
          (choose_recipes suggestions selection).1
            = dedup_first (selected_recipes suggestions selection))
      ∧ (∀ (l : List Recipe) (r : Recipe),
          r.name ∈ (dedup_first l).map Recipe.name →
          dedup_first (l ++ [r]) = dedup_first l) := by
  intro suggestions selection
  have hchosen : py_strip selection ≠ "" →
      (choose_recipes suggestions selection).1
        = dedup_first (selected_recipes suggestions selection) := by
    intro h
    unfold choose_recipes
    rw [if_neg h]
    rw [parse_selection_eq, dedup_loop_eq]
    rfl
  refine ⟨?_, ?_, hchosen, ?_⟩
  · by_cases h : py_strip selection = ""
    · unfold choose_recipes
      rw [if_pos h]
      exact List.nodup_nil
    · rw [hchosen h]
      exact dedup_first_from_names_nodup _ []
  · by_cases h : py_strip selection = ""
    · unfold choose_recipes
      rw [if_pos h]
      exact List.nil_sublist _
    · rw [hchosen h]
      exact dedup_first_from_sublist _ []
  · intro l r hr
    exact dedup_first_from_append_dup l [] r (Or.inr hr)

/-- Witness for C8: selecting `"1, 1, 2"` from a two-element suggestion
list yields distinct names, the chosen list equals the first-occurrence
deduplication, and re-appending an already-chosen recipe changes nothing. -/
theorem C8_selector_dedup_first_order_witness :
    ((choose_recipes [(⟨"A", ["a"], ""⟩, []), (⟨"B", ["b"], ""⟩, ["x"])]
        "1, 1, 2").1.map Recipe.name).Nodup
    ∧ (choose_recipes [(⟨"A", ["a"], ""⟩, []), (⟨"B", ["b"], ""⟩, ["x"])] "1, 1, 2").1
        = dedup_first (selected_recipes
            [(⟨"A", ["a"], ""⟩, []), (⟨"B", ["b"], ""⟩, ["x"])] "1, 1, 2")
    ∧ dedup_first ([⟨"A", ["a"], ""⟩] ++ [⟨"A", ["a"], ""⟩])
        = dedup_first [⟨"A", ["a"], ""⟩] :=
  ⟨(C8_selector_dedup_first_order
      [(⟨"A", ["a"], ""⟩, []), (⟨"B", ["b"], ""⟩, ["x"])] "1, 1, 2").1,
    (C8_selector_dedup_first_order
      [(⟨"A", ["a"], ""⟩, []), (⟨"B", ["b"], ""⟩, ["x"])] "1, 1, 2").2.2.1 (by decide),
    (C8_selector_dedup_first_order
      [(⟨"A", ["a"], ""⟩, []), (⟨"B", ["b"], ""⟩, ["x"])] "1, 1, 2").2.2.2
      [⟨"A", ["a"], ""⟩] ⟨"A", ["a"], ""⟩ (by decide)⟩

/-- `load_recipes` (recipe_app.py, lines 35-88): the fixed inline catalog
of four recipes (instruction texts after `textwrap.dedent(...).strip()`). -/
def load_recipes : List Recipe :=
  [⟨"Pasta with Tomato Sauce",
    ["pasta", "tomato", "garlic", "olive oil", "salt"],
    "1. Cook the pasta according to package instructions.\n2. Heat olive oil in a pan and sauté minced garlic until fragrant.\n3. Add chopped tomatoes and simmer until sauce thickens. Season with salt.\n4. Combine the pasta with the sauce and serve warm."⟩,
   ⟨"Omelette",
    ["eggs", "butter", "cheese", "salt", "pepper"],
    "1. Beat the eggs in a bowl and season with salt and pepper.\n2. Melt butter in a non‑stick pan over medium heat.\n3. Pour in the eggs and cook until just set, then sprinkle cheese over half.\n4. Fold the omelette and slide onto a plate."⟩,
   ⟨"Fresh Salad",
    ["lettuce", "tomato", "cucumber", "olive oil", "lemon", "salt"],
    "1. Wash and chop the lettuce, tomato and cucumber.\n2. In a bowl, whisk together olive oil, lemon juice and salt to make a dressing.\n3. Toss the vegetables with the dressing and serve immediately."⟩,
   ⟨"Grilled Cheese Sandwich",
    ["bread", "cheese", "butter"],
    "1. Butter one side of each slice of bread.\n2. Place a slice of cheese between two pieces of bread, buttered sides facing out.\n3. Grill in a pan over medium heat until both sides are golden and the cheese is melted."⟩]

/-- Accent-removal step of `normalize_ingredients` (vision.py): NFD
normalization followed by dropping `Mn`-category characters.  The Unicode
decomposition tables are not reproduced; dropping the combining diacritical
marks (U+0300-U+036F) agrees with the source on all ASCII text, where NFD
is the identity and no combining marks occur. -/
def strip_accents (s : String) : String :=
  ⟨s.data.filter (fun c => !decide (0x300 ≤ c.toNat ∧ c.toNat ≤ 0x36F))⟩

/-- The `INGREDIENT_SYNONYMS` table of vision.py (lines 18-44). -/
def ingredient_synonyms (t : String) : Option String :=
  match t with
  | "harina" => some "flour"
  | "huevo" => some "egg"
  | "huevos" => some "egg"
  | "leche" => some "milk"
  | "azucar" => some "sugar"
  | "aceite" => some "oil"
  | "sal" => some "salt"
  | "queso" => some "cheese"
  | "tomate" => some "tomato"
  | "tomates" => some "tomato"
  | "cebolla" => some "onion"
  | "ajo" => some "garlic"
  | "pimienta" => some "pepper"
  | "mantequilla" => some "butter"
  | "manteca" => some "butter"
  | "pollo" => some "chicken"
  | "carne" => some "beef"
  | "res" => some "beef"
  | "yogur" => some "yogurt"
  | "yogurt" => some "yogurt"
  | "fresa" => some "strawberries"
  | "fresas" => some "strawberries"
  | "platano" => some "banana"
  | "platanos" => some "banana"
  | _ => none

/-- `normalize_ingredients` (vision.py, lines 59-86): strip accents,
lowercase, split on runs of non-alphanumeric characters (`[^a-zA-Z0-9]+`,
exactly the complement of `Char.isAlpha`/`Char.isDigit`), drop empty
tokens and map each remaining token through the synonym table. -/
def normalize_ingredients (text : String) : List String :=
  let tokens := (split_by (fun c => !(c.isAlpha || c.isDigit))
    (py_lower (strip_accents text)).data).map (fun l => (⟨l⟩ : String))
  (tokens.filter (fun t => t != "")).map (fun t => (ingredient_synonyms t).getD t)

/-- A Python value reaching the `suggest_recipes` call of the web index
handler (web_app.py, line 72): an ingredient token (a `str`) or a
`Recipe`.  The handler passes the token list where `suggest_recipes`
expects the recipe catalog, so both kinds of value flow into each
parameter. -/
inductive PyVal where
  | str (s : String)
  | recipe (r : Recipe)
  deriving DecidableEq

/-- `{i.lower() for i in available}` evaluated at dynamic values: CPython
raises `AttributeError` as soon as an element is a `Recipe` (message text
abridged; quotes omitted). -/
def lower_all : List PyVal → Except String (List String)
  | [] => .ok []
  | .str s :: rest => (lower_all rest).map (fun ls => py_lower s :: ls)
  | .recipe _ :: _ => .error "AttributeError: Recipe object has no attribute lower"

/-- `recipe.missing_ingredients(available)` evaluated at a dynamic value:
attribute lookup on a `str` raises `AttributeError` (message text abridged;
quotes omitted); on a `Recipe` the body of `Recipe.missing_ingredients`
runs on the dynamic `available` list. -/
def missing_ingredients_dyn (v : PyVal) (available : List PyVal) :
    Except String (List String) :=
  match v with
  | .str _ => .error "AttributeError: str object has no attribute missing_ingredients"
  | .recipe r =>
    match lower_all available with
    | .error e => .error e
    | .ok lowered =>
      .ok (r.ingredients.filter (fun ing => !lowered.contains (py_lower ing)))

/-- The suggestion-building loop of `suggest_recipes` (recipe_app.py,
lines 96-99) at dynamic values, propagating the first raised exception. -/
def build_suggestions (available : List PyVal) :
    List PyVal → Except String (List (PyVal × List String))
  | [] => .ok []
  | r :: rest =>
    match missing_ingredients_dyn r available with
    | .error e => .error e
    | .ok m =>
      match build_suggestions available rest with
      | .error e => .error e
      | .ok tail => .ok ((r, m) :: tail)

/-- The sort key of recipe_app.py line 101 at dynamic values. -/
def suggestion_le_dyn (a b : PyVal × List String) : Prop :=
  a.2.length ≤ b.2.length

instance : DecidableRel suggestion_le_dyn :=
  fun a b => Nat.decLe a.2.length b.2.length

/-- `suggest_recipes` (recipe_app.py, lines 91-102) as CPython evaluates it
at dynamic arguments — the form the web handler actually invokes. -/
def suggest_recipes_dyn (recipes available : List PyVal) :
    Except String (List (PyVal × List String)) :=
  match build_suggestions available recipes with
  | .error e => .error e
  | .ok suggestions => .ok (List.insertionSort suggestion_le_dyn suggestions)

/-- The POST branch of the index route (web_app.py, lines 66-75):
`ingredients = normalize_ingredients(raw)`, `recipes = load_recipes()`,
then `suggestions = suggest_recipes(ingredients, recipes)` — the token
list is passed where `suggest_recipes` expects the recipe catalog and the
catalog where it expects the available-ingredient tokens. -/
def index_post (raw : String) : Except String (List (PyVal × List String)) :=
  suggest_recipes_dyn ((normalize_ingredients raw).map PyVal.str)
    (load_recipes.map PyVal.recipe)

/-- Claim C3 fails on the code: for the submitted ingredient text
`"salt"`, the handler's swapped call `suggest_recipes(ingredients,
recipes)` raises `AttributeError` while evaluating
`recipe.missing_ingredients` on the token string, whereas the claimed
computation `rank(load_recipes(), normalize_ingredients("salt"))` is an
ordinary four-element suggestion list. -/
theorem C3_web_adapter_swapped_arguments_fault :
    index_post "salt"
      = .error "AttributeError: str object has no attribute missing_ingredients"
    ∧ (suggest_recipes load_recipes (normalize_ingredients "salt")).length = 4 := by
  exact ⟨rfl, rfl⟩

end RecipeApp
